import Mathlib

/-!
Verification of the tilemap and physics engine of a 2D tile platformer.

The development shallowly embeds the tilemap store (a sparse grid of tiles
keyed by the literal string "gx;gy", plus a list of off-grid tiles), the
autotiler, the physics query layer and the axis-separated collision
resolution of physics entities.  World positions and velocities are modelled
as rationals (the source uses floating point only for positions that stay
well within exact range in the scenarios proved here); bounding rectangles
are integer rectangles, built from a position by truncation toward zero,
exactly as the underlying rectangle type converts its arguments.
-/

/-- Truncation of a rational toward zero: how the rectangle type converts a
fractional coordinate into an integer one. -/
def truncQ (q : ℚ) : ℤ :=
  if 0 ≤ q then ⌊q⌋ else ⌈q⌉

/-- A tile anchored to the grid: a type name, a variant index and the
integer grid coordinate stored in its pos field. -/
structure Tile where
  type : String
  variant : ℤ
  pos : ℤ × ℤ
deriving DecidableEq

/-- An off-grid tile: same data, but with an arbitrary world-space
position. -/
structure OffTile where
  type : String
  variant : ℤ
  pos : ℚ × ℚ
deriving DecidableEq

/-- The sparse grid: an association list from the literal string key
"gx;gy" to the tile there, in insertion order, with (by construction) at
most one entry per key, mirroring the dictionary of the source. -/
abbrev TileStore : Type := List (String × Tile)

/-- The string key of a grid coordinate, the literal "gx;gy" of the
source. -/
def keyString (p : ℤ × ℤ) : String :=
  toString p.1 ++ ";" ++ toString p.2

/-- Dictionary lookup: the value stored at a key, if any. -/
def lookupTile : TileStore → String → Option Tile
  | [], _ => none
  | e :: rest, k => if e.1 = k then some e.2 else lookupTile rest k

/-- In-place mutation of the value at an existing key (the first entry with
that key); a no-op when the key is absent. -/
def updateValue : TileStore → String → Tile → TileStore
  | [], _, _ => []
  | e :: rest, k, v => if e.1 = k then (k, v) :: rest else e :: updateValue rest k v

/-- Dictionary assignment: overwrite the entry at the key if present,
otherwise append a new entry (insertion order of the source dictionary). -/
def setKey : TileStore → String → Tile → TileStore
  | [], k, v => [(k, v)]
  | e :: rest, k, v => if e.1 = k then (k, v) :: rest else e :: setKey rest k v

/-- Dictionary deletion: remove the entry with the key.  Keys are unique in
every store the source builds, so removing every entry with the key models
del exactly. -/
def removeKey (ts : TileStore) (k : String) : TileStore :=
  ts.filter (fun e => !(e.1 = k : Bool))

/-- The type stored at a key, if any: the only part of a neighbouring entry
the autotiler reads. -/
def typeAtKey (ts : TileStore) (k : String) : Option String :=
  (lookupTile ts k).map Tile.type

-- Example evaluations checking that the embedding computes.
example : keyString (1, 0) = "1;0" := by decide
example : keyString (-2, 3) = "-2;3" := by decide
example : truncQ (17 / 2 : ℚ) = 8 := by norm_num [truncQ]
example : truncQ (-17 / 2 : ℚ) = -8 := by
  rw [truncQ, if_neg (by norm_num)]
  rw [show ((-17 : ℚ) / 2) = -(17 / 2) by ring, Int.ceil_neg]
  norm_num
example : (⌊(17 / 2 : ℚ) / 16⌋ : ℤ) = 0 := by norm_num

/-- The scan order of the 3 by 3 neighbourhood, exactly as the source lists
it. -/
def NEIGHBOUR_OFFSETS : List (ℤ × ℤ) :=
  [(1, 1), (1, 0), (1, -1), (0, 1), (0, 0), (0, -1), (-1, 1), (-1, 0), (-1, -1)]

/-- Tile types that take part in collision queries. -/
def PHYSICS_TILES : List String := ["grass", "stone"]

/-- Tile types the autotiler may rewrite. -/
def AUTOTILE_TYPES : List String := ["grass", "stone"]

/-- The tilemap: a tile size in pixels, the sparse grid and the off-grid
tile list.  The game reference of the source is rendering-only and is not
modelled. -/
structure Tilemap where
  tile_size : ℤ
  tilemap : TileStore
  offgrid_tiles : List OffTile
deriving DecidableEq

/-- The grid cell holding a world position: floor division of each
coordinate by the tile size, as the source computes with int(p // size). -/
def tileCell (ts : ℤ) (pos : ℚ × ℚ) : ℤ × ℤ :=
  (⌊pos.1 / (ts : ℚ)⌋, ⌊pos.2 / (ts : ℚ)⌋)

/-- The loop body of tiles_around, at a fixed centre cell: scan the nine
offsets in order and collect the tiles present. -/
def tilesAroundCell (store : TileStore) (tl : ℤ × ℤ) : List Tile :=
  NEIGHBOUR_OFFSETS.foldl
    (fun tiles off =>
      match lookupTile store (keyString (tl.1 + off.1, tl.2 + off.2)) with
      | some t => tiles ++ [t]
      | none => tiles)
    []

/-- tiles_around of the source: the present tiles of the 3 by 3
neighbourhood of the cell holding the position, in scan order. -/
def Tilemap.tiles_around (tm : Tilemap) (pos : ℚ × ℚ) : List Tile :=
  tilesAroundCell tm.tilemap (tileCell tm.tile_size pos)

/-- solid_check of the source: a single-cell lookup that answers only with
a physics-enabled tile. -/
def Tilemap.solid_check (tm : Tilemap) (pos : ℚ × ℚ) : Option Tile :=
  match lookupTile tm.tilemap (keyString (tileCell tm.tile_size pos)) with
  | some t => if t.type ∈ PHYSICS_TILES then some t else none
  | none => none

/-- An integer rectangle: position and size, as the rectangle type of the
source stores them. -/
structure PRect where
  x : ℤ
  y : ℤ
  w : ℤ
  h : ℤ
deriving DecidableEq

/-- The right edge of a rectangle. -/
def PRect.right (r : PRect) : ℤ := r.x + r.w

/-- The bottom edge of a rectangle. -/
def PRect.bottom (r : PRect) : ℤ := r.y + r.h

/-- Overlap test of the source rectangle type: strict on every edge, so
rectangles that merely touch do not collide. -/
def PRect.colliderect (a b : PRect) : Bool :=
  decide (a.x < b.x + b.w) && decide (b.x < a.x + a.w) &&
    decide (a.y < b.y + b.h) && decide (b.y < a.y + a.h)

/-- The collision rectangle a physics tile spans: one tile-size square at
the pixel position of its grid cell. -/
def tileRect (ts : ℤ) (t : Tile) : PRect :=
  ⟨t.pos.1 * ts, t.pos.2 * ts, ts, ts⟩

/-- physics_rects_around of the source: the rectangles of the
physics-enabled tiles near the position. -/
def Tilemap.physics_rects_around (tm : Tilemap) (pos : ℚ × ℚ) : List PRect :=
  (tm.tiles_around pos).foldl
    (fun rects t =>
      if t.type ∈ PHYSICS_TILES then rects ++ [tileRect tm.tile_size t] else rects)
    []

/-- One iteration of the off-grid loop of extract, carrying the matches so
far and the current off-grid list.  A match appends a copy and, unless
keep is set, removes the first equal element from the live list. -/
def extractOffStep (id_pairs : List (String × ℤ)) (keep : Bool)
    (st : List OffTile × List OffTile) (t : OffTile) : List OffTile × List OffTile :=
  if (t.type, t.variant) ∈ id_pairs then
    (st.1 ++ [t], if keep then st.2 else st.2.erase t)
  else st

/-- The copy extract appends for a matched grid tile: position rescaled
from grid units to pixel units. -/
def gridMatchTile (ts : ℤ) (t : Tile) : OffTile :=
  ⟨t.type, t.variant, ((t.pos.1 * ts : ℤ), (t.pos.2 * ts : ℤ))⟩

/-- One iteration of the grid loop of extract, over a snapshot entry: a
match appends the rescaled copy and, unless keep is set, deletes the key
from the live dictionary. -/
def extractGridStep (id_pairs : List (String × ℤ)) (ts : ℤ) (keep : Bool)
    (st : List OffTile × TileStore) (e : String × Tile) : List OffTile × TileStore :=
  if (e.2.type, e.2.variant) ∈ id_pairs then
    (st.1 ++ [gridMatchTile ts e.2], if keep then st.2 else removeKey st.2 e.1)
  else st

/-- extract of the source: collect copies of every matching off-grid tile,
then of every matching grid tile (rescaled to pixels); with keep unset the
matched tiles are removed from the store.  Returns the matches and the
store left behind. -/
def Tilemap.extract (tm : Tilemap) (id_pairs : List (String × ℤ)) (keep : Bool) :
    List OffTile × Tilemap :=
  let offRes := tm.offgrid_tiles.foldl (extractOffStep id_pairs keep) ([], tm.offgrid_tiles)
  let gridRes := tm.tilemap.foldl (extractGridStep id_pairs tm.tile_size keep) (offRes.1, tm.tilemap)
  (gridRes.1, { tm with tilemap := gridRes.2, offgrid_tiles := offRes.2 })

/-- The four cardinal shifts in ascending lexicographic order.  The source
collects the same-type shifts into a set and sorts it; filtering this
sorted list yields exactly that sorted tuple. -/
def sortedShifts : List (ℤ × ℤ) := [(-1, 0), (0, -1), (0, 1), (1, 0)]

/-- The autotile rule table, keyed by the sorted neighbour signature. -/
def AUTOTILE_MAP (sig : List (ℤ × ℤ)) : Option ℤ :=
  if sig = [(0, 1), (1, 0)] then some 0
  else if sig = [(-1, 0), (0, 1), (1, 0)] then some 1
  else if sig = [(-1, 0), (0, 1)] then some 2
  else if sig = [(-1, 0), (0, -1), (0, 1)] then some 3
  else if sig = [(-1, 0), (0, -1)] then some 4
  else if sig = [(-1, 0), (0, -1), (1, 0)] then some 5
  else if sig = [(0, -1), (1, 0)] then some 6
  else if sig = [(0, -1), (0, 1), (1, 0)] then some 7
  else if sig = [(-1, 0), (0, -1), (0, 1), (1, 0)] then some 8
  else none

/-- The sorted neighbour signature of a tile: the cardinal shifts at which
the store holds a tile of the same type. -/
def autotileSig (store : TileStore) (t : Tile) : List (ℤ × ℤ) :=
  sortedShifts.filter
    (fun s => typeAtKey store (keyString (t.pos.1 + s.1, t.pos.2 + s.2)) = some t.type)

/-- The autotile rewrite of one tile: an eligible tile whose signature is
in the table gets the table variant; every other tile is unchanged. -/
def retileTile (store : TileStore) (t : Tile) : Tile :=
  if t.type ∈ AUTOTILE_TYPES then
    match AUTOTILE_MAP (autotileSig store t) with
    | some v => { t with variant := v }
    | none => t
  else t

/-- One iteration of the autotile loop: rewrite the tile at one key of the
live store, reading neighbours from the live store. -/
def autotileStep (store : TileStore) (loc : String) : TileStore :=
  match lookupTile store loc with
  | some t => updateValue store loc (retileTile store t)
  | none => store

/-- autotile of the source: iterate over the keys of the store, rewriting
each value in place. -/
def Tilemap.autotile (tm : Tilemap) : Tilemap :=
  { tm with tilemap := (tm.tilemap.map Prod.fst).foldl autotileStep tm.tilemap }

/-- The values of the persisted tilemap format.  save and load are related
through this value type; the textual layer of the serializer is a
bijection on the values the store writes, so it is not remodelled. -/
inductive Json where
  | null : Json
  | bool (b : Bool) : Json
  | num (q : ℚ) : Json
  | str (s : String) : Json
  | arr (elems : List Json) : Json
  | obj (fields : List (String × Json)) : Json

/-- Field lookup in a serialized object. -/
def getField : List (String × Json) → String → Option Json
  | [], _ => none
  | e :: rest, k => if e.1 = k then some e.2 else getField rest k

/-- The serialized form of a grid tile. -/
def tileJson (t : Tile) : Json :=
  .obj [("type", .str t.type), ("variant", .num (t.variant : ℚ)),
        ("pos", .arr [.num (t.pos.1 : ℚ), .num (t.pos.2 : ℚ)])]

/-- The serialized form of an off-grid tile. -/
def offTileJson (t : OffTile) : Json :=
  .obj [("type", .str t.type), ("variant", .num (t.variant : ℚ)),
        ("pos", .arr [.num t.pos.1, .num t.pos.2])]

/-- save of the source: dump the grid (keyed by the literal string keys),
the tile size and the off-grid list. -/
def Tilemap.save (tm : Tilemap) : Json :=
  .obj [("tilemap", .obj (tm.tilemap.map (fun e => (e.1, tileJson e.2)))),
        ("tile_size", .num (tm.tile_size : ℚ)),
        ("offgrid", .arr (tm.offgrid_tiles.map offTileJson))]

/-- An integer read from a serialized number. -/
def asInt : Json → Option ℤ
  | .num q => if q.den = 1 then some q.num else none
  | _ => none

/-- A string read from a serialized value. -/
def asStr : Json → Option String
  | .str s => some s
  | _ => none

/-- A rational read from a serialized number. -/
def asQ : Json → Option ℚ
  | .num q => some q
  | _ => none

/-- A grid tile read back from its serialized form. -/
def decodeTile : Json → Option Tile
  | .obj fields =>
    match getField fields "type", getField fields "variant", getField fields "pos" with
    | some tj, some vj, some (.arr [xj, yj]) => do
      let ty ← asStr tj
      let v ← asInt vj
      let x ← asInt xj
      let y ← asInt yj
      pure ⟨ty, v, (x, y)⟩
    | _, _, _ => none
  | _ => none

/-- The grid entries read back, key by key; any malformed entry fails the
load. -/
def decodeEntries : List (String × Json) → Option TileStore
  | [] => some []
  | e :: rest =>
    match decodeTile e.2, decodeEntries rest with
    | some t, some ts2 => some ((e.1, t) :: ts2)
    | _, _ => none

/-- An off-grid tile read back from its serialized form. -/
def decodeOffTile : Json → Option OffTile
  | .obj fields =>
    match getField fields "type", getField fields "variant", getField fields "pos" with
    | some tj, some vj, some (.arr [xj, yj]) => do
      let ty ← asStr tj
      let v ← asInt vj
      let x ← asQ xj
      let y ← asQ yj
      pure ⟨ty, v, (x, y)⟩
    | _, _, _ => none
  | _ => none

/-- The off-grid list read back, element by element. -/
def decodeOffList : List Json → Option (List OffTile)
  | [] => some []
  | j :: rest =>
    match decodeOffTile j, decodeOffList rest with
    | some t, some ts2 => some (t :: ts2)
    | _, _ => none

/-- load of the source: read the three top-level fields and overwrite every
field of the in-memory store with them; the prior state is discarded. -/
def Tilemap.load (_old : Tilemap) (j : Json) : Option Tilemap :=
  match j with
  | .obj fields =>
    match getField fields "tilemap", getField fields "tile_size", getField fields "offgrid" with
    | some (.obj entries), some tsj, some (.arr offs) =>
      match decodeEntries entries, asInt tsj, decodeOffList offs with
      | some grid, some ts, some off =>
        some { tile_size := ts, tilemap := grid, offgrid_tiles := off }
      | _, _, _ => none
    | _, _, _ => none
  | _ => none

/-- The store edits of the editor: grid placement (dictionary assignment at
the literal key), grid removal (del if present) and off-grid append. -/
inductive EditOp where
  | place (ty : String) (variant : ℤ) (gpos : ℤ × ℤ) : EditOp
  | removeAt (gpos : ℤ × ℤ) : EditOp
  | addOffgrid (ty : String) (variant : ℤ) (wpos : ℚ × ℚ) : EditOp

/-- Apply one editor operation to the store. -/
def applyEdit (tm : Tilemap) : EditOp → Tilemap
  | .place ty v p => { tm with tilemap := setKey tm.tilemap (keyString p) ⟨ty, v, p⟩ }
  | .removeAt p => { tm with tilemap := removeKey tm.tilemap (keyString p) }
  | .addOffgrid ty v p => { tm with offgrid_tiles := tm.offgrid_tiles ++ [⟨ty, v, p⟩] }

/-- Apply a sequence of editor operations in order. -/
def applyEdits (ops : List EditOp) (tm : Tilemap) : Tilemap :=
  ops.foldl applyEdit tm

/-- The per-frame collision flags of a physics entity. -/
structure Collisions where
  up : Bool
  down : Bool
  right : Bool
  left : Bool
deriving DecidableEq

/-- All four flags reset, as each update begins. -/
def noCollisions : Collisions := ⟨false, false, false, false⟩

/-- The loop state of one collision pass: the working entity rectangle,
the position coordinate of the axis being resolved, and the flags. -/
structure PassState where
  er : PRect
  coord : ℚ
  coll : Collisions
deriving DecidableEq

/-- One iteration of the horizontal collision loop: on overlap, clamp the
right edge to the obstacle when moving right (mirrored on the left when
moving left) and write the rectangle coordinate back into the position. -/
def xCollideStep (fmx : ℚ) (st : PassState) (r : PRect) : PassState :=
  if st.er.colliderect r then
    let s1 := if fmx > 0 then
        PassState.mk { st.er with x := r.x - st.er.w } st.coord { st.coll with right := true }
      else st
    let s2 := if fmx < 0 then
        PassState.mk { s1.er with x := r.x + r.w } s1.coord { s1.coll with left := true }
      else s1
    { s2 with coord := (s2.er.x : ℚ) }
  else st

/-- One iteration of the vertical collision loop, the mirror of
xCollideStep on the y axis. -/
def yCollideStep (fmy : ℚ) (st : PassState) (r : PRect) : PassState :=
  if st.er.colliderect r then
    let s1 := if fmy > 0 then
        PassState.mk { st.er with y := r.y - st.er.h } st.coord { st.coll with down := true }
      else st
    let s2 := if fmy < 0 then
        PassState.mk { s1.er with y := r.y + r.h } s1.coord { s1.coll with up := true }
      else s1
    { s2 with coord := (s2.er.y : ℚ) }
  else st

/-- A physics entity: position, size, velocity, the flags of the last
completed update, facing and last movement.  Animation state is
rendering-only and not modelled. -/
structure Entity where
  pos : ℚ × ℚ
  size : ℤ × ℤ
  velocity : ℚ × ℚ
  collisions : Collisions
  flip : Bool
  last_movement : ℚ × ℚ
deriving DecidableEq

/-- The bounding rectangle the rectangle type builds from a position:
coordinates truncated toward zero. -/
def entityRect (px py : ℚ) (sz : ℤ × ℤ) : PRect :=
  ⟨truncQ px, truncQ py, sz.1, sz.2⟩

/-- rect of the source entity. -/
def Entity.rect (e : Entity) : PRect :=
  entityRect e.pos.1 e.pos.2 e.size

/-- The horizontal pass: query the rectangles around the moved position
once, then fold the collision loop over them. -/
def xPass (tm : Tilemap) (fmx : ℚ) (px py : ℚ) (sz : ℤ × ℤ) (c : Collisions) : PassState :=
  (tm.physics_rects_around (px, py)).foldl (xCollideStep fmx) ⟨entityRect px py sz, px, c⟩

/-- The vertical pass, run after the horizontal pass on the corrected x
position. -/
def yPass (tm : Tilemap) (fmy : ℚ) (px py : ℚ) (sz : ℤ × ℤ) (c : Collisions) : PassState :=
  (tm.physics_rects_around (px, py)).foldl (yCollideStep fmy) ⟨entityRect px py sz, py, c⟩

/-- update of the source entity: reset flags, form the frame movement,
resolve x then y against the physics rectangles, face the input movement,
then apply gravity with its cap and the vertical-collision reset. -/
def Entity.update (e : Entity) (tm : Tilemap) (movement : ℚ × ℚ) : Entity :=
  let fm : ℚ × ℚ := (movement.1 + e.velocity.1, movement.2 + e.velocity.2)
  let sx := xPass tm fm.1 (e.pos.1 + fm.1) e.pos.2 e.size noCollisions
  let sy := yPass tm fm.2 sx.coord (e.pos.2 + fm.2) e.size sx.coll
  { pos := (sx.coord, sy.coord)
    size := e.size
    velocity :=
      (e.velocity.1, if sy.coll.down || sy.coll.up then 0 else min 5 (e.velocity.2 + 1 / 10))
    collisions := sy.coll
    flip := if movement.1 > 0 then false else if movement.1 < 0 then true else e.flip
    last_movement := movement }

/-- The 3 by 3 scan as the spec words it: the present tiles among the nine
cells, in the fixed scan order, realized as filterMap over the offsets. -/
def tilesAroundCellFromSpec (store : TileStore) (tl : ℤ × ℤ) : List Tile :=
  NEIGHBOUR_OFFSETS.filterMap
    (fun off => lookupTile store (keyString (tl.1 + off.1, tl.2 + off.2)))

/-- tiles_around as the spec words it: floor-divide the position by the
tile size, then take the present tiles of the 3 by 3 neighbourhood in scan
order. -/
def Tilemap.tilesAroundFromSpec (tm : Tilemap) (pos : ℚ × ℚ) : List Tile :=
  tilesAroundCellFromSpec tm.tilemap (tileCell tm.tile_size pos)

/-- The physics rectangles at a fixed centre cell: the loop of
physics_rects_around once the cell is known. -/
def physicsRectsCell (store : TileStore) (ts : ℤ) (tl : ℤ × ℤ) : List PRect :=
  (tilesAroundCell store tl).foldl
    (fun rects t =>
      if t.type ∈ PHYSICS_TILES then rects ++ [tileRect ts t] else rects)
    []

/-- The matches of extract as the spec words them: every off-grid tile
whose pair is in the set, then every grid tile whose pair is in the set,
the latter rescaled to pixel units. -/
def extractMatchesFromSpec (tm : Tilemap) (id_pairs : List (String × ℤ)) : List OffTile :=
  tm.offgrid_tiles.filter (fun t => decide ((t.type, t.variant) ∈ id_pairs)) ++
    ((tm.tilemap.map Prod.snd).filter
      (fun t => decide ((t.type, t.variant) ∈ id_pairs))).map (gridMatchTile tm.tile_size)

/-- A decor tile: present in the store but not physics-enabled. -/
def decorTile : Tile := ⟨"decor", 0, (0, 0)⟩

/-- A store holding only the decor tile at the origin cell. -/
def decorMap : Tilemap := ⟨16, [("0;0", decorTile)], []⟩

/-- A grass tile at grid cell (1, 0): the obstacle of the rightward-motion
scenario, spanning pixels 16 to 32 horizontally. -/
def wallTile : Tile := ⟨"grass", 1, (1, 0)⟩

/-- The store of the rightward-motion scenario. -/
def wallMap : Tilemap := ⟨16, [("1;0", wallTile)], []⟩

/-- The entity of the rightward-motion scenario: at (x, 0) with the player
size, at rest. -/
def runEntity (x : ℚ) : Entity := ⟨(x, 0), (8, 15), (0, 0), noCollisions, false, (0, 0)⟩

/-- A store with a grass floor tile at grid cell (0, 1), spanning pixels 16
to 32 vertically. -/
def floorMap : Tilemap := ⟨16, [("0;1", ⟨"grass", 1, (0, 1)⟩)], []⟩

/-- A falling entity just above the floor tile, with accumulated downward
velocity 2. -/
def fallEntity : Entity := ⟨(0, 0), (8, 15), (0, 2), noCollisions, false, (0, 0)⟩

/-- A store with a grass tile at the origin cell, pixels 0 to 16 both
ways. -/
def groundMap : Tilemap := ⟨16, [("0;0", ⟨"grass", 1, (0, 0)⟩)], []⟩

/-- A stationary entity with a fractional x coordinate overlapping the
origin tile. -/
def overlapEntity : Entity := ⟨(17 / 2, 0), (8, 15), (0, 0), noCollisions, false, (0, 0)⟩

/-- A grass tile surrounded by same-type tiles at all four cardinal
offsets. -/
def crossTM : Tilemap :=
  ⟨16, [("0;0", ⟨"grass", 3, (0, 0)⟩), ("1;0", ⟨"grass", 0, (1, 0)⟩),
        ("-1;0", ⟨"grass", 0, (-1, 0)⟩), ("0;-1", ⟨"grass", 0, (0, -1)⟩),
        ("0;1", ⟨"grass", 0, (0, 1)⟩)], []⟩

/-- A grass tile with same-type neighbours exactly at the +x and +y
offsets. -/
def cornerTM : Tilemap :=
  ⟨16, [("0;0", ⟨"grass", 5, (0, 0)⟩), ("1;0", ⟨"grass", 0, (1, 0)⟩),
        ("0;1", ⟨"grass", 0, (0, 1)⟩)], []⟩

/-- An isolated grass tile: its empty signature is not in the rule table. -/
def lonelyTM : Tilemap := ⟨16, [("0;0", ⟨"grass", 5, (0, 0)⟩)], []⟩

-- Generic fold lemmas used throughout.

lemma foldl_collect_eq_filterMap {α β : Type} (f : α → Option β) (l : List α) :
    ∀ acc : List β,
      l.foldl (fun out a => match f a with | some b => out ++ [b] | none => out) acc
        = acc ++ l.filterMap f := by
  induction l with
  | nil => intro acc; simp
  | cons a l ih =>
    intro acc
    cases h : f a with
    | none => simp [List.foldl_cons, h, ih, List.filterMap_cons]
    | some b => simp [List.foldl_cons, h, ih, List.filterMap_cons]

lemma foldl_preserve {α β : Type} (P : β → Prop) (f : β → α → β)
    (hstep : ∀ b a, P b → P (f b a)) :
    ∀ (l : List α) (b : β), P b → P (l.foldl f b) := by
  intro l
  induction l with
  | nil => intro b hb; exact hb
  | cons a l ih => intro b hb; exact ih _ (hstep _ _ hb)

lemma foldl_fixed {α β : Type} (f : β → α → β) (b : β)
    (hstep : ∀ a, f b a = b) : ∀ l : List α, l.foldl f b = b := by
  intro l
  induction l with
  | nil => rfl
  | cons a l ih => rw [List.foldl_cons, hstep, ih]

-- The collision passes at a fixed centre cell.

lemma physics_rects_around_cell (tm : Tilemap) (pos : ℚ × ℚ) :
    tm.physics_rects_around pos
      = physicsRectsCell tm.tilemap tm.tile_size (tileCell tm.tile_size pos) := rfl

lemma tilesAroundCell_fold (store : TileStore) (tl : ℤ × ℤ) :
    ∀ (offs : List (ℤ × ℤ)) (acc : List Tile),
      offs.foldl
        (fun tiles off =>
          match lookupTile store (keyString (tl.1 + off.1, tl.2 + off.2)) with
          | some t => tiles ++ [t]
          | none => tiles)
        acc
      = acc ++ offs.filterMap
          (fun off => lookupTile store (keyString (tl.1 + off.1, tl.2 + off.2))) := by
  intro offs
  induction offs with
  | nil => intro acc; simp
  | cons a l ih =>
    intro acc
    rw [List.foldl_cons, List.filterMap_cons]
    cases h : lookupTile store (keyString (tl.1 + a.1, tl.2 + a.2)) with
    | none => simp only [h]; rw [ih]
    | some b => simp only [h]; rw [ih, List.append_assoc]; rfl

lemma tilesAroundCell_eq_fromSpec (store : TileStore) (tl : ℤ × ℤ) :
    tilesAroundCell store tl = tilesAroundCellFromSpec store tl := by
  unfold tilesAroundCell tilesAroundCellFromSpec
  rw [tilesAroundCell_fold store tl NEIGHBOUR_OFFSETS []]
  rw [List.nil_append]

/-- Claim C5: tiles_around floor-divides the world position by the tile
size and returns exactly the tiles present among the nine cells of the
3 by 3 neighbourhood, in the fixed scan order; when no neighbouring cell
holds a tile it returns the empty sequence. -/
theorem tiles_around_scan :
    (∀ (tm : Tilemap) (pos : ℚ × ℚ), tm.tiles_around pos = tm.tilesAroundFromSpec pos) ∧
    (∀ (tm : Tilemap) (pos : ℚ × ℚ),
      (∀ off ∈ NEIGHBOUR_OFFSETS,
        lookupTile tm.tilemap
          (keyString ((tileCell tm.tile_size pos).1 + off.1,
            (tileCell tm.tile_size pos).2 + off.2)) = none) →
      tm.tiles_around pos = []) := by
  constructor
  · intro tm pos
    exact tilesAroundCell_eq_fromSpec tm.tilemap (tileCell tm.tile_size pos)
  · intro tm pos h
    rw [Tilemap.tiles_around, tilesAroundCell_eq_fromSpec]
    unfold tilesAroundCellFromSpec
    exact List.filterMap_eq_nil_iff.mpr (fun off hoff => h off hoff)

/-- Witness for C5: on the empty store every lookup is absent and the scan
returns the empty sequence. -/
theorem tiles_around_scan_witness :
    Tilemap.tiles_around ⟨16, [], []⟩ (0, 0) = [] :=
  tiles_around_scan.2 ⟨16, [], []⟩ (0, 0) (fun _ _ => rfl)

/-- Claim C8: solid_check is a single-cell lookup at the grid cell holding
the position, answering a tile exactly when one is present there and its
type is physics-enabled; on a decor tile or an empty cell it answers
absent rather than failing. -/
theorem solid_check_single_cell :
    (∀ (tm : Tilemap) (pos : ℚ × ℚ) (t : Tile),
      tm.solid_check pos = some t ↔
        lookupTile tm.tilemap (keyString (tileCell tm.tile_size pos)) = some t ∧
          t.type ∈ PHYSICS_TILES) ∧
    (lookupTile decorMap.tilemap (keyString (tileCell decorMap.tile_size (1, 1)))
        = some decorTile ∧
      decorMap.solid_check (1, 1) = none) ∧
    (∀ (ts : ℤ) (pos : ℚ × ℚ), Tilemap.solid_check ⟨ts, [], []⟩ pos = none) := by
  refine ⟨?_, ?_, ?_⟩
  · intro tm pos t
    unfold Tilemap.solid_check
    cases h : lookupTile tm.tilemap (keyString (tileCell tm.tile_size pos)) with
    | none => simp
    | some t2 =>
      by_cases hm : t2.type ∈ PHYSICS_TILES
      · simp only [hm, if_true, Option.some.injEq]
        constructor
        · rintro rfl
          exact ⟨rfl, hm⟩
        · rintro ⟨h1, _⟩
          exact h1
      · simp only [hm, if_false]
        constructor
        · rintro ⟨⟩
        · rintro ⟨h1, h2⟩
          obtain rfl : t2 = t := by simpa using h1
          exact absurd h2 hm
  · have hcell : tileCell decorMap.tile_size (1, 1) = (0, 0) := by
      show tileCell 16 (1, 1) = (0, 0)
      unfold tileCell
      norm_num
    rw [hcell]
    constructor
    · decide
    · show Tilemap.solid_check decorMap (1, 1) = none
      unfold Tilemap.solid_check
      rw [hcell]
      decide
  · intro ts pos
    rfl

-- Evaluation of the landing scenario.

lemma xPass_fall : xPass floorMap 0 0 0 (8, 15) noCollisions
    = ⟨⟨0, 0, 8, 15⟩, 0, noCollisions⟩ := by
  unfold xPass
  rw [physics_rects_around_cell]
  have hcell : tileCell floorMap.tile_size (0, 0) = (0, 0) := by
    show tileCell 16 (0, 0) = (0, 0)
    unfold tileCell
    norm_num
  rw [hcell]
  have hrects : physicsRectsCell floorMap.tilemap floorMap.tile_size (0, 0)
      = [⟨0, 16, 16, 16⟩] := by decide
  rw [hrects]
  have her : entityRect 0 0 (8, 15) = ⟨0, 0, 8, 15⟩ := by
    unfold entityRect truncQ
    norm_num
  rw [her]
  have hcol : PRect.colliderect ⟨0, 0, 8, 15⟩ ⟨0, 16, 16, 16⟩ = false := by decide
  simp [xCollideStep, hcol]

lemma yPass_fall : yPass floorMap 2 0 2 (8, 15) noCollisions
    = ⟨⟨0, 1, 8, 15⟩, 1, ⟨false, true, false, false⟩⟩ := by
  unfold yPass
  rw [physics_rects_around_cell]
  have hcell : tileCell floorMap.tile_size (0, 2) = (0, 0) := by
    show tileCell 16 (0, 2) = (0, 0)
    unfold tileCell
    norm_num
  rw [hcell]
  have hrects : physicsRectsCell floorMap.tilemap floorMap.tile_size (0, 0)
      = [⟨0, 16, 16, 16⟩] := by decide
  rw [hrects]
  have her : entityRect 0 2 (8, 15) = ⟨0, 2, 8, 15⟩ := by
    unfold entityRect truncQ
    norm_num
  rw [her]
  have hcol : PRect.colliderect ⟨0, 2, 8, 15⟩ ⟨0, 16, 16, 16⟩ = true := by decide
  simp only [List.foldl_cons, List.foldl_nil, yCollideStep, hcol]
  norm_num [noCollisions]

lemma update_fallEntity : fallEntity.update floorMap (0, 0)
    = ⟨(0, 1), (8, 15), (0, 0), ⟨false, true, false, false⟩, false, (0, 0)⟩ := by
  unfold Entity.update
  norm_num [fallEntity]
  rw [xPass_fall]
  norm_num [yPass_fall]

/-- Claim C7: each update increments the vertical velocity by the fixed
gravity step and caps it at the maximal fall speed 5, and resets it to
zero exactly when a vertical collision happened that frame; a falling
entity landing on the physics tile below ends the update with the down
flag set and vertical velocity zero. -/
theorem gravity_cap_and_reset :
    (∀ (e : Entity) (tm : Tilemap) (movement : ℚ × ℚ),
      (e.update tm movement).velocity.2 =
        if (e.update tm movement).collisions.down || (e.update tm movement).collisions.up
        then 0 else min 5 (e.velocity.2 + 1 / 10)) ∧
    ((fallEntity.update floorMap (0, 0)).collisions.down = true ∧
      (fallEntity.update floorMap (0, 0)).velocity.2 = 0) := by
  constructor
  · intro e tm movement
    rfl
  · rw [update_fallEntity]
    exact ⟨rfl, rfl⟩

-- The extract loops: matches, the keep discipline and removal.

lemma extractOffStep_matches (id_pairs : List (String × ℤ)) (keep : Bool) :
    ∀ (l : List OffTile) (ms cur : List OffTile),
      (l.foldl (extractOffStep id_pairs keep) (ms, cur)).1
        = ms ++ l.filter (fun t => decide ((t.type, t.variant) ∈ id_pairs)) := by
  intro l
  induction l with
  | nil => intro ms cur; simp
  | cons t l ih =>
    intro ms cur
    rw [List.foldl_cons, List.filter_cons]
    by_cases hm : (t.type, t.variant) ∈ id_pairs
    · rw [extractOffStep, if_pos hm]
      rw [ih]
      simp [hm]
    · rw [extractOffStep, if_neg hm]
      rw [ih]
      simp [hm]

lemma extractOffStep_snd (id_pairs : List (String × ℤ)) (keep : Bool) :
    ∀ (l : List OffTile) (ms cur : List OffTile),
      (l.foldl (extractOffStep id_pairs keep) (ms, cur)).2
        = l.foldl
            (fun c t => if (t.type, t.variant) ∈ id_pairs then
              (if keep then c else c.erase t) else c)
            cur := by
  intro l
  induction l with
  | nil => intro ms cur; rfl
  | cons t l ih =>
    intro ms cur
    rw [List.foldl_cons, List.foldl_cons]
    by_cases hm : (t.type, t.variant) ∈ id_pairs
    · rw [extractOffStep, if_pos hm, if_pos hm]
      exact ih _ _
    · rw [extractOffStep, if_neg hm, if_neg hm]
      exact ih _ _

lemma eraseFold_shift {α : Type} [DecidableEq α] (p : α → Prop) [DecidablePred p] :
    ∀ (m : List α) (t : α) (c : List α), ¬ p t →
      m.foldl (fun c2 x => if p x then c2.erase x else c2) (t :: c)
        = t :: m.foldl (fun c2 x => if p x then c2.erase x else c2) c := by
  intro m
  induction m with
  | nil => intro t c _; rfl
  | cons x m ih =>
    intro t c ht
    rw [List.foldl_cons, List.foldl_cons]
    by_cases hx : p x
    · have hne : (t == x) = false := by
        simp only [beq_eq_false_iff_ne, ne_eq]
        rintro rfl
        exact ht hx
      rw [if_pos hx, if_pos hx, List.erase_cons, hne]
      exact ih t _ ht
    · rw [if_neg hx, if_neg hx]
      exact ih t c ht

lemma eraseFold_filter {α : Type} [DecidableEq α] (p : α → Prop) [DecidablePred p] :
    ∀ l : List α,
      l.foldl (fun c x => if p x then c.erase x else c) l
        = l.filter (fun x => !(decide (p x))) := by
  intro l
  induction l with
  | nil => rfl
  | cons t l ih =>
    rw [List.foldl_cons, List.filter_cons]
    by_cases ht : p t
    · rw [if_pos ht, List.erase_cons_head]
      rw [ih]
      simp [ht]
    · rw [if_neg ht, eraseFold_shift p l t l ht, ih]
      simp [ht]

lemma extractGridStep_matches (id_pairs : List (String × ℤ)) (ts : ℤ) (keep : Bool) :
    ∀ (l : TileStore) (ms : List OffTile) (cur : TileStore),
      (l.foldl (extractGridStep id_pairs ts keep) (ms, cur)).1
        = ms ++ ((l.map Prod.snd).filter
            (fun t => decide ((t.type, t.variant) ∈ id_pairs))).map (gridMatchTile ts) := by
  intro l
  induction l with
  | nil => intro ms cur; simp
  | cons e l ih =>
    intro ms cur
    rw [List.foldl_cons, List.map_cons, List.filter_cons]
    by_cases hm : (e.2.type, e.2.variant) ∈ id_pairs
    · rw [extractGridStep, if_pos hm]
      rw [ih]
      simp [hm]
    · rw [extractGridStep, if_neg hm]
      rw [ih]
      simp [hm]

lemma extractGridStep_snd (id_pairs : List (String × ℤ)) (ts : ℤ) (keep : Bool) :
    ∀ (l : TileStore) (ms : List OffTile) (cur : TileStore),
      (l.foldl (extractGridStep id_pairs ts keep) (ms, cur)).2
        = l.foldl
            (fun c e => if (e.2.type, e.2.variant) ∈ id_pairs then
              (if keep then c else removeKey c e.1) else c)
            cur := by
  intro l
  induction l with
  | nil => intro ms cur; rfl
  | cons e l ih =>
    intro ms cur
    rw [List.foldl_cons, List.foldl_cons]
    by_cases hm : (e.2.type, e.2.variant) ∈ id_pairs
    · rw [extractGridStep, if_pos hm, if_pos hm]
      exact ih _ _
    · rw [extractGridStep, if_neg hm, if_neg hm]
      exact ih _ _

lemma removeKeyFold_keep (id_pairs : List (String × ℤ)) :
    ∀ (l : TileStore) (cur : TileStore),
      l.foldl
        (fun c e => if (e.2.type, e.2.variant) ∈ id_pairs then
          (if true then c else removeKey c e.1) else c)
        cur = cur := by
  intro l
  induction l with
  | nil => intro cur; rfl
  | cons e l ih =>
    intro cur
    rw [List.foldl_cons]
    by_cases hm : (e.2.type, e.2.variant) ∈ id_pairs
    · rw [if_pos hm, if_pos rfl]
      exact ih cur
    · rw [if_neg hm]
      exact ih cur

lemma removeKeyFold_unmatched (id_pairs : List (String × ℤ)) :
    ∀ (m : TileStore) (cur : TileStore),
      (∀ e ∈ cur, (e.2.type, e.2.variant) ∈ id_pairs →
        ∃ e2 ∈ m, e2.1 = e.1 ∧ (e2.2.type, e2.2.variant) ∈ id_pairs) →
      ∀ e ∈ m.foldl
          (fun c e2 => if (e2.2.type, e2.2.variant) ∈ id_pairs then
            (if false then c else removeKey c e2.1) else c)
          cur,
        (e.2.type, e.2.variant) ∉ id_pairs := by
  intro m
  induction m with
  | nil =>
    intro cur hinv e he hmem
    obtain ⟨e2, he2, _⟩ := hinv e he hmem
    exact absurd he2 (List.not_mem_nil e2)
  | cons a m ih =>
    intro cur hinv
    rw [List.foldl_cons]
    by_cases ha : (a.2.type, a.2.variant) ∈ id_pairs
    · rw [if_pos ha, if_neg (by simp)]
      refine ih (removeKey cur a.1) ?_
      intro e he hmem
      have he2 : e ∈ cur ∧ ¬ e.1 = a.1 := by
        have := List.mem_filter.mp he
        refine ⟨this.1, ?_⟩
        simpa using this.2
      obtain ⟨e2, he2m, hk, hp⟩ := hinv e he2.1 hmem
      rcases List.mem_cons.mp he2m with h | h
      · subst h
        exact absurd hk.symm he2.2
      · exact ⟨e2, h, hk, hp⟩
    · rw [if_neg ha]
      refine ih cur ?_
      intro e he hmem
      obtain ⟨e2, he2m, hk, hp⟩ := hinv e he hmem
      rcases List.mem_cons.mp he2m with h | h
      · subst h
        exact absurd hp ha
      · exact ⟨e2, h, hk, hp⟩

lemma eraseFold_keep (id_pairs : List (String × ℤ)) :
    ∀ (l cur : List OffTile),
      l.foldl
        (fun c t => if (t.type, t.variant) ∈ id_pairs then
          (if true then c else c.erase t) else c)
        cur = cur := by
  intro l
  induction l with
  | nil => intro cur; rfl
  | cons t l ih =>
    intro cur
    rw [List.foldl_cons]
    by_cases hm : (t.type, t.variant) ∈ id_pairs
    · rw [if_pos hm, if_pos rfl]
      exact ih cur
    · rw [if_neg hm]
      exact ih cur

/-- Claim C6: extract returns copies of every grid and off-grid tile whose
type-variant pair is in the given set, grid copies rescaled to pixel
units; with keep set the store is left unchanged, and with keep unset the
matched tiles are removed, so a second identical extract returns the empty
sequence. -/
theorem extract_matches_and_removal :
    (∀ (tm : Tilemap) (id_pairs : List (String × ℤ)) (keep : Bool),
      (tm.extract id_pairs keep).1 = extractMatchesFromSpec tm id_pairs) ∧
    (∀ (tm : Tilemap) (id_pairs : List (String × ℤ)),
      (tm.extract id_pairs true).2 = tm) ∧
    (∀ (tm : Tilemap) (id_pairs : List (String × ℤ)),
      (((tm.extract id_pairs false).2).extract id_pairs false).1 = []) := by
  refine ⟨?_, ?_, ?_⟩
  · intro tm id_pairs keep
    simp only [Tilemap.extract]
    rw [extractGridStep_matches, extractOffStep_matches]
    simp [extractMatchesFromSpec]
  · intro tm id_pairs
    simp only [Tilemap.extract]
    rw [extractGridStep_snd, extractOffStep_snd]
    rw [removeKeyFold_keep, eraseFold_keep]
  · intro tm id_pairs
    have hoff2 : ((tm.extract id_pairs false).2).offgrid_tiles
        = tm.offgrid_tiles.filter
            (fun t => !(decide ((t.type, t.variant) ∈ id_pairs))) := by
      simp only [Tilemap.extract]
      rw [extractOffStep_snd]
      exact eraseFold_filter (fun t => (t.type, t.variant) ∈ id_pairs) tm.offgrid_tiles
    have hgrid2 : ∀ e ∈ ((tm.extract id_pairs false).2).tilemap,
        (e.2.type, e.2.variant) ∉ id_pairs := by
      simp only [Tilemap.extract]
      rw [extractGridStep_snd]
      exact removeKeyFold_unmatched id_pairs tm.tilemap tm.tilemap
        (fun e he hm => ⟨e, he, rfl, hm⟩)
    set s1 := (tm.extract id_pairs false).2
    have h1 : (tm.offgrid_tiles.filter
          (fun t => !(decide ((t.type, t.variant) ∈ id_pairs)))).filter
        (fun t => decide ((t.type, t.variant) ∈ id_pairs)) = [] := by
      rw [List.filter_filter]
      refine List.filter_eq_nil_iff.mpr ?_
      intro t _
      simp
    have h2 : ((s1.tilemap.map Prod.snd).filter
        (fun t => decide ((t.type, t.variant) ∈ id_pairs))) = [] := by
      refine List.filter_eq_nil_iff.mpr ?_
      intro t ht
      obtain ⟨e, he, rfl⟩ := List.mem_map.mp ht
      simpa using hgrid2 e he
    simp only [Tilemap.extract]
    rw [extractGridStep_matches, extractOffStep_matches]
    rw [hoff2, h1, List.nil_append, h2]
    rfl

/-- Witness for C6: extracting the grass tile of the one-tile store
returns the rescaled copy. -/
theorem extract_matches_and_removal_witness :
    (groundMap.extract [("grass", 1)] false).1 = [⟨"grass", 1, (0, 0)⟩] := by
  rw [extract_matches_and_removal.1 groundMap [("grass", 1)] false]
  norm_num [extractMatchesFromSpec, groundMap, gridMatchTile]

-- Serialization: decode inverts encode, so save then load restores the store.

lemma decodeTile_tileJson (t : Tile) : decodeTile (tileJson t) = some t := by
  simp [decodeTile, tileJson, getField, asStr, asInt, Rat.den_intCast, Rat.num_intCast]

lemma decodeOffTile_offTileJson (t : OffTile) : decodeOffTile (offTileJson t) = some t := by
  simp [decodeOffTile, offTileJson, getField, asStr, asInt, asQ,
    Rat.den_intCast, Rat.num_intCast]

lemma decodeEntries_save (l : TileStore) :
    decodeEntries (l.map (fun e => (e.1, tileJson e.2))) = some l := by
  induction l with
  | nil => rfl
  | cons e l ih => simp [decodeEntries, decodeTile_tileJson, ih]

lemma decodeOffList_save (l : List OffTile) :
    decodeOffList (l.map offTileJson) = some l := by
  induction l with
  | nil => rfl
  | cons t l ih => simp [decodeOffList, decodeOffTile_offTileJson, ih]

lemma load_save (old tm : Tilemap) : Tilemap.load old (Tilemap.save tm) = some tm := by
  simp [Tilemap.load, Tilemap.save, getField, decodeEntries_save, decodeOffList_save,
    asInt, Rat.den_intCast, Rat.num_intCast]

/-- Claim C2: for every store produced by a sequence of grid placements,
grid removals and off-grid additions, saving and then loading yields the
identical store (same grid tiles, same off-grid list, same tile size), and
loading replaces whatever store was in memory before. -/
theorem save_load_round_trip :
    ∀ (ops : List EditOp) (old : Tilemap) (ts : ℤ),
      Tilemap.load old (Tilemap.save (applyEdits ops ⟨ts, [], []⟩))
        = some (applyEdits ops ⟨ts, [], []⟩) := by
  intro ops old ts
  exact load_save old (applyEdits ops ⟨ts, [], []⟩)

/-- Witness for C2: a concrete editing session round-trips through the
serialized form, whatever store was loaded before. -/
theorem save_load_round_trip_witness :
    Tilemap.load ⟨32, [("9;9", ⟨"stone", 2, (9, 9)⟩)], []⟩
        (Tilemap.save (applyEdits
          [.place "grass" 1 (0, 0), .addOffgrid "decor" 0 (5, 5), .removeAt (2, 2)]
          ⟨16, [], []⟩))
      = some (applyEdits
          [.place "grass" 1 (0, 0), .addOffgrid "decor" 0 (5, 5), .removeAt (2, 2)]
          ⟨16, [], []⟩) :=
  save_load_round_trip
    [.place "grass" 1 (0, 0), .addOffgrid "decor" 0 (5, 5), .removeAt (2, 2)]
    ⟨32, [("9;9", ⟨"stone", 2, (9, 9)⟩)], []⟩ 16

-- Dictionary lemmas for the autotile pass.

lemma lookupTile_updateValue (k : String) (v : Tile) :
    ∀ (ts : TileStore) (k2 : String),
      lookupTile (updateValue ts k v) k2
        = if k2 = k then (lookupTile ts k).map (fun _ => v) else lookupTile ts k2 := by
  intro ts
  induction ts with
  | nil =>
    intro k2
    simp [updateValue, lookupTile]
  | cons e rest ih =>
    intro k2
    by_cases he : e.1 = k
    · by_cases h2 : k2 = k
      · subst h2
        simp [updateValue, lookupTile, he]
      · have hkk2 : ¬ k = k2 := fun h => h2 h.symm
        have hek2 : ¬ e.1 = k2 := fun h => hkk2 (by rw [← he]; exact h)
        simp [updateValue, lookupTile, he, h2, hkk2, hek2]
    · by_cases h2 : k2 = k
      · subst h2
        simp [updateValue, lookupTile, he, ih]
      · simp [updateValue, lookupTile, he, h2, ih]

lemma keys_updateValue (k : String) (v : Tile) :
    ∀ ts : TileStore, (updateValue ts k v).map Prod.fst = ts.map Prod.fst := by
  intro ts
  induction ts with
  | nil => rfl
  | cons e rest ih =>
    by_cases he : e.1 = k
    · simp [updateValue, he]
    · simp [updateValue, he, ih]

lemma updateValue_self (k : String) (v : Tile) :
    ∀ ts : TileStore, lookupTile ts k = some v → updateValue ts k v = ts := by
  intro ts
  induction ts with
  | nil => intro h; simp [lookupTile] at h
  | cons e rest ih =>
    intro h
    by_cases he : e.1 = k
    · simp only [lookupTile, he, if_true] at h
      have hev : (k, v) = e := by
        obtain ⟨e1, e2⟩ := e
        simp only at he
        simp only [Option.some.injEq] at h
        simp [he, h]
      simp [updateValue, he, hev]
    · simp only [lookupTile, he, if_false] at h
      simp [updateValue, he, ih h]

lemma lookupTile_eq_none (k : String) :
    ∀ ts : TileStore, lookupTile ts k = none ↔ k ∉ ts.map Prod.fst := by
  intro ts
  induction ts with
  | nil => simp [lookupTile]
  | cons e rest ih =>
    by_cases he : e.1 = k
    · simp [lookupTile, he]
    · simp only [lookupTile, he, if_false, ih, List.map_cons, List.mem_cons]
      constructor
      · intro h hor
        rcases hor with hk | hk
        · exact he hk.symm
        · exact h hk
      · intro h hk
        exact h (Or.inr hk)

-- What one autotile iteration does to the store.

lemma retileTile_type (store : TileStore) (t : Tile) : (retileTile store t).type = t.type := by
  unfold retileTile
  by_cases he : t.type ∈ AUTOTILE_TYPES
  · cases hm : AUTOTILE_MAP (autotileSig store t) <;> simp [he, hm]
  · simp [he]

lemma retileTile_pos (store : TileStore) (t : Tile) : (retileTile store t).pos = t.pos := by
  unfold retileTile
  by_cases he : t.type ∈ AUTOTILE_TYPES
  · cases hm : AUTOTILE_MAP (autotileSig store t) <;> simp [he, hm]
  · simp [he]

lemma retileTile_congr (store1 store2 : TileStore) (t : Tile)
    (h : ∀ k, typeAtKey store1 k = typeAtKey store2 k) :
    retileTile store1 t = retileTile store2 t := by
  unfold retileTile autotileSig
  simp only [h]

lemma autotileSig_congr (store : TileStore) (t1 t2 : Tile)
    (hty : t1.type = t2.type) (hpos : t1.pos = t2.pos) :
    autotileSig store t1 = autotileSig store t2 := by
  unfold autotileSig
  rw [hty, hpos]

lemma retileTile_idem (store : TileStore) (t : Tile) :
    retileTile store (retileTile store t) = retileTile store t := by
  by_cases he : t.type ∈ AUTOTILE_TYPES
  · cases hm : AUTOTILE_MAP (autotileSig store t) with
    | none =>
      have h1 : retileTile store t = t := by
        unfold retileTile
        simp [he, hm]
      rw [h1, h1]
    | some v =>
      have h1 : retileTile store t = { t with variant := v } := by
        unfold retileTile
        simp [he, hm]
      have hsig : autotileSig store { t with variant := v } = autotileSig store t :=
        autotileSig_congr store _ t rfl rfl
      rw [h1]
      unfold retileTile
      simp [he, hsig, hm]
  · have h1 : retileTile store t = t := by
      unfold retileTile
      simp [he]
    rw [h1, h1]

lemma autotileStep_keys (store : TileStore) (loc : String) :
    (autotileStep store loc).map Prod.fst = store.map Prod.fst := by
  unfold autotileStep
  cases h : lookupTile store loc with
  | none => rfl
  | some t => exact keys_updateValue loc (retileTile store t) store

lemma autotileStep_typeAt (store : TileStore) (loc : String) :
    ∀ k, typeAtKey (autotileStep store loc) k = typeAtKey store k := by
  intro k
  unfold autotileStep
  cases h : lookupTile store loc with
  | none => rfl
  | some t =>
    unfold typeAtKey
    rw [lookupTile_updateValue]
    by_cases hk : k = loc
    · subst hk
      rw [if_pos rfl, h]
      simp [retileTile_type]
    · rw [if_neg hk]

lemma autotileStep_lookup_other (store : TileStore) (loc k : String) (hk : ¬ k = loc) :
    lookupTile (autotileStep store loc) k = lookupTile store k := by
  unfold autotileStep
  cases h : lookupTile store loc with
  | none => rfl
  | some t =>
    rw [lookupTile_updateValue, if_neg hk]

lemma autotileStep_none (store : TileStore) (loc : String)
    (h : lookupTile store loc = none) : autotileStep store loc = store := by
  unfold autotileStep
  rw [h]

lemma autotileStep_some (store : TileStore) (loc : String) (t : Tile)
    (h : lookupTile store loc = some t) :
    autotileStep store loc = updateValue store loc (retileTile store t) := by
  unfold autotileStep
  rw [h]

lemma autotileStep_lookup_self (tm store : TileStore) (loc : String)
    (h2 : ∀ k, typeAtKey store k = typeAtKey tm k)
    (h3 : ∀ k, lookupTile store k = lookupTile tm k ∨
      lookupTile store k = (lookupTile tm k).map (retileTile tm)) :
    lookupTile (autotileStep store loc) loc = (lookupTile tm loc).map (retileTile tm) := by
  cases h : lookupTile store loc with
  | none =>
    rw [autotileStep_none store loc h, h]
    rcases h3 loc with hc | hc
    · rw [h] at hc
      rw [← hc]
      rfl
    · rw [h] at hc
      exact hc
  | some t =>
    have hr : retileTile store t = retileTile tm t := retileTile_congr store tm t h2
    rw [autotileStep_some store loc t h, lookupTile_updateValue, if_pos rfl, h]
    rcases h3 loc with hc | hc
    · rw [h] at hc
      rw [← hc]
      simp [hr]
    · rw [h] at hc
      cases htm : lookupTile tm loc with
      | none => rw [htm] at hc; simp at hc
      | some t0 =>
        rw [htm] at hc
        simp only [Option.map_some', Option.some.injEq] at hc
        subst hc
        simp [hr, retileTile_idem]

lemma autotile_fold (tm : TileStore) :
    ∀ (locs : List String) (acc : TileStore),
      acc.map Prod.fst = tm.map Prod.fst →
      (∀ k, typeAtKey acc k = typeAtKey tm k) →
      (∀ k, lookupTile acc k = lookupTile tm k ∨
        lookupTile acc k = (lookupTile tm k).map (retileTile tm)) →
      ((locs.foldl autotileStep acc).map Prod.fst = tm.map Prod.fst) ∧
      (∀ k ∈ locs, lookupTile (locs.foldl autotileStep acc) k
        = (lookupTile tm k).map (retileTile tm)) ∧
      (∀ k, k ∉ locs → lookupTile (locs.foldl autotileStep acc) k = lookupTile acc k) := by
  intro locs
  induction locs with
  | nil =>
    intro acc h1 _ _
    exact ⟨h1, by simp, fun k _ => rfl⟩
  | cons loc rest ih =>
    intro acc h1 h2 h3
    have hk' : (autotileStep acc loc).map Prod.fst = tm.map Prod.fst :=
      (autotileStep_keys acc loc).trans h1
    have ht' : ∀ k, typeAtKey (autotileStep acc loc) k = typeAtKey tm k :=
      fun k => (autotileStep_typeAt acc loc k).trans (h2 k)
    have hself : lookupTile (autotileStep acc loc) loc
        = (lookupTile tm loc).map (retileTile tm) :=
      autotileStep_lookup_self tm acc loc h2 h3
    have hl' : ∀ k, lookupTile (autotileStep acc loc) k = lookupTile tm k ∨
        lookupTile (autotileStep acc loc) k = (lookupTile tm k).map (retileTile tm) := by
      intro k
      by_cases hk : k = loc
      · subst hk
        exact Or.inr hself
      · rw [autotileStep_lookup_other acc loc k hk]
        exact h3 k
    obtain ⟨g1, g2, g3⟩ := ih (autotileStep acc loc) hk' ht' hl'
    rw [List.foldl_cons]
    refine ⟨g1, ?_, ?_⟩
    · intro k hkmem
      rcases List.mem_cons.mp hkmem with rfl | hm
      · by_cases hr : k ∈ rest
        · exact g2 k hr
        · rw [g3 k hr]
          exact hself
      · exact g2 k hm
    · intro k hk
      have hkl : ¬ k = loc := fun h => hk (h ▸ List.mem_cons_self loc rest)
      have hkr : k ∉ rest := fun h => hk (List.mem_cons_of_mem loc h)
      rw [g3 k hkr]
      exact autotileStep_lookup_other acc loc k hkl

lemma autotile_keys (tm : Tilemap) :
    tm.autotile.tilemap.map Prod.fst = tm.tilemap.map Prod.fst := by
  unfold Tilemap.autotile
  exact (autotile_fold tm.tilemap (tm.tilemap.map Prod.fst) tm.tilemap rfl
    (fun _ => rfl) (fun _ => Or.inl rfl)).1

lemma autotile_lookup (tm : Tilemap) (k : String) :
    lookupTile tm.autotile.tilemap k
      = (lookupTile tm.tilemap k).map (retileTile tm.tilemap) := by
  obtain ⟨g1, g2, g3⟩ := autotile_fold tm.tilemap (tm.tilemap.map Prod.fst) tm.tilemap rfl
    (fun _ => rfl) (fun _ => Or.inl rfl)
  by_cases hk : k ∈ tm.tilemap.map Prod.fst
  · exact g2 k hk
  · have hnone : lookupTile tm.tilemap k = none := (lookupTile_eq_none k tm.tilemap).mpr hk
    unfold Tilemap.autotile
    rw [g3 k hk, hnone]
    rfl

lemma autotile_typeAt (tm : Tilemap) :
    ∀ k, typeAtKey tm.autotile.tilemap k = typeAtKey tm.tilemap k := by
  intro k
  unfold typeAtKey
  rw [autotile_lookup]
  cases lookupTile tm.tilemap k with
  | none => rfl
  | some t => simp [retileTile_type]

/-- Claim C3: autotile is idempotent; running the full-recompute pass a
second time leaves the store exactly as the first run left it. -/
theorem autotile_idempotent : ∀ tm : Tilemap, tm.autotile.autotile = tm.autotile := by
  intro tm
  have hstep : ∀ loc, autotileStep tm.autotile.tilemap loc = tm.autotile.tilemap := by
    intro loc
    cases hl : lookupTile tm.autotile.tilemap loc with
    | none => exact autotileStep_none _ loc hl
    | some t =>
      have h0 := autotile_lookup tm loc
      rw [hl] at h0
      cases htm : lookupTile tm.tilemap loc with
      | none => rw [htm] at h0; simp at h0
      | some t0 =>
        rw [htm] at h0
        simp only [Option.map_some', Option.some.injEq] at h0
        have hr : retileTile tm.autotile.tilemap t = t := by
          rw [retileTile_congr tm.autotile.tilemap tm.tilemap t (autotile_typeAt tm), h0,
            retileTile_idem]
        rw [autotileStep_some _ loc t hl, hr]
        exact updateValue_self loc t _ hl
  have hdef : Tilemap.autotile tm.autotile
      = { tm.autotile with
          tilemap := (tm.autotile.tilemap.map Prod.fst).foldl autotileStep
            tm.autotile.tilemap } := rfl
  rw [hdef, foldl_fixed autotileStep tm.autotile.tilemap hstep]

/-- Witness for C3: the idempotence law evaluated at the cross store. -/
theorem autotile_idempotent_witness : crossTM.autotile.autotile = crossTM.autotile :=
  autotile_idempotent crossTM

/-- Claim C4: after autotile, an eligible tile with same-type neighbours at
all four cardinal offsets gets variant 8 (the cross entry); one with
same-type neighbours exactly at the +x and +y offsets gets variant 0; and
a tile whose signature is not in the rule table keeps its prior variant
unchanged. -/
theorem autotile_variant_resolution :
    (∀ (tm : Tilemap) (loc : String) (t : Tile),
      lookupTile tm.tilemap loc = some t →
      t.type ∈ AUTOTILE_TYPES →
      (∀ s ∈ sortedShifts,
        typeAtKey tm.tilemap (keyString (t.pos.1 + s.1, t.pos.2 + s.2)) = some t.type) →
      lookupTile tm.autotile.tilemap loc = some { t with variant := 8 }) ∧
    (∀ (tm : Tilemap) (loc : String) (t : Tile),
      lookupTile tm.tilemap loc = some t →
      t.type ∈ AUTOTILE_TYPES →
      typeAtKey tm.tilemap (keyString (t.pos.1 + 1, t.pos.2 + 0)) = some t.type →
      typeAtKey tm.tilemap (keyString (t.pos.1 + 0, t.pos.2 + 1)) = some t.type →
      typeAtKey tm.tilemap (keyString (t.pos.1 + -1, t.pos.2 + 0)) ≠ some t.type →
      typeAtKey tm.tilemap (keyString (t.pos.1 + 0, t.pos.2 + -1)) ≠ some t.type →
      lookupTile tm.autotile.tilemap loc = some { t with variant := 0 }) ∧
    (∀ (tm : Tilemap) (loc : String) (t : Tile),
      lookupTile tm.tilemap loc = some t →
      AUTOTILE_MAP (autotileSig tm.tilemap t) = none →
      lookupTile tm.autotile.tilemap loc = some t) := by
  refine ⟨?_, ?_, ?_⟩
  · intro tm loc t hlook helig hall
    have hsig : autotileSig tm.tilemap t = sortedShifts := by
      unfold autotileSig
      refine List.filter_eq_self.mpr ?_
      intro s hs
      simp only [decide_eq_true_eq]
      exact hall s hs
    have hmap : AUTOTILE_MAP sortedShifts = some 8 := by decide
    have hr : retileTile tm.tilemap t = { t with variant := 8 } := by
      unfold retileTile
      rw [if_pos helig, hsig, hmap]
    rw [autotile_lookup, hlook]
    simp [hr]
  · intro tm loc t hlook helig hxp hyp hxn hyn
    have hsig : autotileSig tm.tilemap t = [(0, 1), (1, 0)] := by
      unfold autotileSig sortedShifts
      simp only [List.filter_cons, List.filter_nil, hxp, hyp, hxn, hyn,
        decide_eq_true_eq]
      simp [hxn, hyn]
    have hmap : AUTOTILE_MAP [((0 : ℤ), (1 : ℤ)), (1, 0)] = some 0 := by decide
    have hr : retileTile tm.tilemap t = { t with variant := 0 } := by
      unfold retileTile
      rw [if_pos helig, hsig, hmap]
    rw [autotile_lookup, hlook]
    simp [hr]
  · intro tm loc t hlook hnone
    have hr : retileTile tm.tilemap t = t := by
      unfold retileTile
      by_cases helig : t.type ∈ AUTOTILE_TYPES
      · rw [if_pos helig, hnone]
      · rw [if_neg helig]
    rw [autotile_lookup, hlook]
    simp [hr]

/-- Witness for C4: the cross store resolves its centre to variant 8, the
corner store to variant 0, and the isolated tile keeps variant 5. -/
theorem autotile_variant_resolution_witness :
    lookupTile crossTM.autotile.tilemap "0;0" = some ⟨"grass", 8, (0, 0)⟩ ∧
    lookupTile cornerTM.autotile.tilemap "0;0" = some ⟨"grass", 0, (0, 0)⟩ ∧
    lookupTile lonelyTM.autotile.tilemap "0;0" = some ⟨"grass", 5, (0, 0)⟩ :=
  ⟨autotile_variant_resolution.1 crossTM "0;0" ⟨"grass", 3, (0, 0)⟩
      (by decide) (by decide) (by decide),
    autotile_variant_resolution.2.1 cornerTM "0;0" ⟨"grass", 5, (0, 0)⟩
      (by decide) (by decide) (by decide) (by decide) (by decide) (by decide),
    autotile_variant_resolution.2.2 lonelyTM "0;0" ⟨"grass", 5, (0, 0)⟩
      (by decide) (by decide)⟩

-- Invariants of the collision passes.

lemma xCollideStep_up_down (fmx : ℚ) (s : PassState) (r : PRect) :
    (xCollideStep fmx s r).coll.up = s.coll.up ∧
      (xCollideStep fmx s r).coll.down = s.coll.down := by
  unfold xCollideStep
  by_cases hc : s.er.colliderect r
  · by_cases h1 : fmx > 0 <;> by_cases h2 : fmx < 0 <;> simp [hc, h1, h2]
  · simp [hc]

lemma yCollideStep_right_left (fmy : ℚ) (s : PassState) (r : PRect) :
    (yCollideStep fmy s r).coll.right = s.coll.right ∧
      (yCollideStep fmy s r).coll.left = s.coll.left := by
  unfold yCollideStep
  by_cases hc : s.er.colliderect r
  · by_cases h1 : fmy > 0 <;> by_cases h2 : fmy < 0 <;> simp [hc, h1, h2]
  · simp [hc]

lemma xPass_up_down (tm : Tilemap) (fmx px py : ℚ) (sz : ℤ × ℤ) (c : Collisions) :
    (xPass tm fmx px py sz c).coll.up = c.up ∧
      (xPass tm fmx px py sz c).coll.down = c.down := by
  unfold xPass
  refine foldl_preserve (fun s : PassState => s.coll.up = c.up ∧ s.coll.down = c.down)
    _ ?_ _ _ ⟨rfl, rfl⟩
  intro s r hs
  obtain ⟨h1, h2⟩ := xCollideStep_up_down fmx s r
  exact ⟨h1.trans hs.1, h2.trans hs.2⟩

lemma yPass_right_left (tm : Tilemap) (fmy px py : ℚ) (sz : ℤ × ℤ) (c : Collisions) :
    (yPass tm fmy px py sz c).coll.right = c.right ∧
      (yPass tm fmy px py sz c).coll.left = c.left := by
  unfold yPass
  refine foldl_preserve
    (fun s : PassState => s.coll.right = c.right ∧ s.coll.left = c.left) _ ?_ _ _
    ⟨rfl, rfl⟩
  intro s r hs
  obtain ⟨h1, h2⟩ := yCollideStep_right_left fmy s r
  exact ⟨h1.trans hs.1, h2.trans hs.2⟩

lemma xPass_int (tm : Tilemap) (fmx px py : ℚ) (sz : ℤ × ℤ) (c : Collisions)
    (h : (c.right = true ∨ c.left = true) → ∃ n : ℤ, px = (n : ℚ)) :
    ((xPass tm fmx px py sz c).coll.right = true ∨
      (xPass tm fmx px py sz c).coll.left = true) →
      ∃ n : ℤ, (xPass tm fmx px py sz c).coord = (n : ℚ) := by
  unfold xPass
  refine foldl_preserve
    (fun s : PassState =>
      (s.coll.right = true ∨ s.coll.left = true) → ∃ n : ℤ, s.coord = (n : ℚ))
    _ ?_ _ _ h
  intro s r hs
  by_cases hc : s.er.colliderect r
  · unfold xCollideStep
    rw [if_pos hc]
    intro _
    exact ⟨_, rfl⟩
  · unfold xCollideStep
    rw [if_neg hc]
    exact hs

lemma yPass_int (tm : Tilemap) (fmy px py : ℚ) (sz : ℤ × ℤ) (c : Collisions)
    (h : (c.down = true ∨ c.up = true) → ∃ n : ℤ, py = (n : ℚ)) :
    ((yPass tm fmy px py sz c).coll.down = true ∨
      (yPass tm fmy px py sz c).coll.up = true) →
      ∃ n : ℤ, (yPass tm fmy px py sz c).coord = (n : ℚ) := by
  unfold yPass
  refine foldl_preserve
    (fun s : PassState =>
      (s.coll.down = true ∨ s.coll.up = true) → ∃ n : ℤ, s.coord = (n : ℚ))
    _ ?_ _ _ h
  intro s r hs
  by_cases hc : s.er.colliderect r
  · unfold yCollideStep
    rw [if_pos hc]
    intro _
    exact ⟨_, rfl⟩
  · unfold yCollideStep
    rw [if_neg hc]
    exact hs

lemma xCollideStep_zero (fmx : ℚ) (h1 : ¬ fmx > 0) (h2 : ¬ fmx < 0)
    (s : PassState) (r : PRect) :
    xCollideStep fmx s r
      = if s.er.colliderect r then { s with coord := (s.er.x : ℚ) } else s := by
  unfold xCollideStep
  by_cases hc : s.er.colliderect r <;> simp [hc, h1, h2]

lemma yCollideStep_zero (fmy : ℚ) (h1 : ¬ fmy > 0) (h2 : ¬ fmy < 0)
    (s : PassState) (r : PRect) :
    yCollideStep fmy s r
      = if s.er.colliderect r then { s with coord := (s.er.y : ℚ) } else s := by
  unfold yCollideStep
  by_cases hc : s.er.colliderect r <;> simp [hc, h1, h2]

lemma xPass_zero (tm : Tilemap) (fmx px py : ℚ) (sz : ℤ × ℤ) (c : Collisions)
    (h1 : ¬ fmx > 0) (h2 : ¬ fmx < 0) :
    (xPass tm fmx px py sz c).coll = c ∧
      ((xPass tm fmx px py sz c).coord = px ∨
        (xPass tm fmx px py sz c).coord = (truncQ px : ℚ)) := by
  unfold xPass
  have hstep : ∀ (s : PassState) (r : PRect),
      (s.er = entityRect px py sz ∧ s.coll = c ∧
        (s.coord = px ∨ s.coord = (truncQ px : ℚ))) →
      ((xCollideStep fmx s r).er = entityRect px py sz ∧
        (xCollideStep fmx s r).coll = c ∧
        ((xCollideStep fmx s r).coord = px ∨
          (xCollideStep fmx s r).coord = (truncQ px : ℚ))) := by
    intro s r hs
    rw [xCollideStep_zero fmx h1 h2 s r]
    by_cases hc : s.er.colliderect r
    · rw [if_pos hc]
      refine ⟨hs.1, hs.2.1, Or.inr ?_⟩
      show (s.er.x : ℚ) = (truncQ px : ℚ)
      rw [hs.1]
      rfl
    · rw [if_neg hc]
      exact hs
  have hmain := foldl_preserve _ (xCollideStep fmx) hstep
    (tm.physics_rects_around (px, py)) ⟨entityRect px py sz, px, c⟩ ⟨rfl, rfl, Or.inl rfl⟩
  exact ⟨hmain.2.1, hmain.2.2⟩

lemma yPass_zero (tm : Tilemap) (fmy px py : ℚ) (sz : ℤ × ℤ) (c : Collisions)
    (h1 : ¬ fmy > 0) (h2 : ¬ fmy < 0) :
    (yPass tm fmy px py sz c).coll = c ∧
      ((yPass tm fmy px py sz c).coord = py ∨
        (yPass tm fmy px py sz c).coord = (truncQ py : ℚ)) := by
  unfold yPass
  have hstep : ∀ (s : PassState) (r : PRect),
      (s.er = entityRect px py sz ∧ s.coll = c ∧
        (s.coord = py ∨ s.coord = (truncQ py : ℚ))) →
      ((yCollideStep fmy s r).er = entityRect px py sz ∧
        (yCollideStep fmy s r).coll = c ∧
        ((yCollideStep fmy s r).coord = py ∨
          (yCollideStep fmy s r).coord = (truncQ py : ℚ))) := by
    intro s r hs
    rw [yCollideStep_zero fmy h1 h2 s r]
    by_cases hc : s.er.colliderect r
    · rw [if_pos hc]
      refine ⟨hs.1, hs.2.1, Or.inr ?_⟩
      show (s.er.y : ℚ) = (truncQ py : ℚ)
      rw [hs.1]
      rfl
    · rw [if_neg hc]
      exact hs
  have hmain := foldl_preserve _ (yCollideStep fmy) hstep
    (tm.physics_rects_around (px, py)) ⟨entityRect px py sz, py, c⟩ ⟨rfl, rfl, Or.inl rfl⟩
  exact ⟨hmain.2.1, hmain.2.2⟩

/-- Claim C9: whenever a collision clamp occurred on an axis this frame
(the axis flag is set), the position coordinate written back on that axis
is an integer value: the clamped edge comes from an integer-coordinate
rectangle, so any fractional part on that axis is discarded. -/
theorem clamped_axis_position_is_integer :
    ∀ (e : Entity) (tm : Tilemap) (movement : ℚ × ℚ),
      ((e.update tm movement).collisions.right = true ∨
          (e.update tm movement).collisions.left = true →
        ∃ n : ℤ, (e.update tm movement).pos.1 = (n : ℚ)) ∧
      ((e.update tm movement).collisions.down = true ∨
          (e.update tm movement).collisions.up = true →
        ∃ n : ℤ, (e.update tm movement).pos.2 = (n : ℚ)) := by
  intro e tm movement
  set sx := xPass tm (movement.1 + e.velocity.1)
    (e.pos.1 + (movement.1 + e.velocity.1)) e.pos.2 e.size noCollisions with hsx
  set sy := yPass tm (movement.2 + e.velocity.2) sx.coord
    (e.pos.2 + (movement.2 + e.velocity.2)) e.size sx.coll with hsy
  have hcoll : (e.update tm movement).collisions = sy.coll := rfl
  have hpos1 : (e.update tm movement).pos.1 = sx.coord := rfl
  have hpos2 : (e.update tm movement).pos.2 = sy.coord := rfl
  have hyrl := yPass_right_left tm (movement.2 + e.velocity.2) sx.coord
    (e.pos.2 + (movement.2 + e.velocity.2)) e.size sx.coll
  have hxud := xPass_up_down tm (movement.1 + e.velocity.1)
    (e.pos.1 + (movement.1 + e.velocity.1)) e.pos.2 e.size noCollisions
  rw [← hsy] at hyrl
  rw [← hsx] at hxud
  constructor
  · intro hflag
    rw [hcoll, hyrl.1, hyrl.2] at hflag
    rw [hpos1]
    refine xPass_int tm (movement.1 + e.velocity.1)
      (e.pos.1 + (movement.1 + e.velocity.1)) e.pos.2 e.size noCollisions ?_ ?_
    · intro hc
      rcases hc with hc | hc <;> exact absurd hc (by simp [noCollisions])
    · rw [hsx] at hflag
      exact hflag
  · intro hflag
    rw [hcoll] at hflag
    rw [hpos2, hsy]
    refine yPass_int tm (movement.2 + e.velocity.2) sx.coord
      (e.pos.2 + (movement.2 + e.velocity.2)) e.size sx.coll ?_ ?_
    · intro hc
      rw [hxud.2, hxud.1] at hc
      rcases hc with hc | hc <;> exact absurd hc (by simp [noCollisions])
    · rw [hsy] at hflag
      exact hflag

-- Evaluation of the stationary-overlap scenario.

lemma xPass_overlap (c : Collisions) : xPass groundMap 0 (17 / 2) 0 (8, 15) c
    = ⟨⟨8, 0, 8, 15⟩, 8, c⟩ := by
  unfold xPass
  rw [physics_rects_around_cell]
  have hcell : tileCell groundMap.tile_size (17 / 2, 0) = (0, 0) := by
    show tileCell 16 (17 / 2, 0) = (0, 0)
    unfold tileCell
    norm_num
  rw [hcell]
  have hrects : physicsRectsCell groundMap.tilemap groundMap.tile_size (0, 0)
      = [⟨0, 0, 16, 16⟩] := by decide
  rw [hrects]
  have her : entityRect (17 / 2) 0 (8, 15) = ⟨8, 0, 8, 15⟩ := by
    unfold entityRect truncQ
    norm_num
  rw [her]
  have hcol : PRect.colliderect ⟨8, 0, 8, 15⟩ ⟨0, 0, 16, 16⟩ = true := by decide
  simp only [List.foldl_cons, List.foldl_nil]
  rw [xCollideStep_zero 0 (by norm_num) (by norm_num)]
  simp [hcol]

lemma yPass_overlap (c : Collisions) : yPass groundMap 0 8 0 (8, 15) c
    = ⟨⟨8, 0, 8, 15⟩, 0, c⟩ := by
  unfold yPass
  rw [physics_rects_around_cell]
  have hcell : tileCell groundMap.tile_size (8, 0) = (0, 0) := by
    show tileCell 16 (8, 0) = (0, 0)
    unfold tileCell
    norm_num
  rw [hcell]
  have hrects : physicsRectsCell groundMap.tilemap groundMap.tile_size (0, 0)
      = [⟨0, 0, 16, 16⟩] := by decide
  rw [hrects]
  have her : entityRect 8 0 (8, 15) = ⟨8, 0, 8, 15⟩ := by
    unfold entityRect truncQ
    norm_num
  rw [her]
  have hcol : PRect.colliderect ⟨8, 0, 8, 15⟩ ⟨0, 0, 16, 16⟩ = true := by decide
  simp only [List.foldl_cons, List.foldl_nil]
  rw [yCollideStep_zero 0 (by norm_num) (by norm_num)]
  simp [hcol]

lemma update_overlapEntity : overlapEntity.update groundMap (0, 0)
    = ⟨(8, 0), (8, 15), (0, 1 / 10), noCollisions, false, (0, 0)⟩ := by
  unfold Entity.update
  norm_num [overlapEntity]
  rw [xPass_overlap]
  norm_num [yPass_overlap, noCollisions]

/-- Counterexample for C10: a stationary entity (frame movement exactly
zero on both axes) overlapping the origin tile, with fractional x
coordinate 17/2, is moved by the update: its x coordinate becomes 8. -/
theorem zero_movement_moves_entity :
    ((0 : ℚ) + overlapEntity.velocity.1 = 0 ∧
      (0 : ℚ) + overlapEntity.velocity.2 = 0) ∧
      (overlapEntity.update groundMap (0, 0)).pos.1 ≠ overlapEntity.pos.1 := by
  constructor
  · constructor <;> norm_num [overlapEntity]
  · rw [update_overlapEntity]
    norm_num [overlapEntity]

/-- Claim C10 as amended: when the frame movement on an axis is exactly
zero, that axis sets no collision flags and performs no clamping, but an
overlapping entity still has the fractional part of that coordinate
discarded (the coordinate is either unchanged or replaced by its integer
truncation). -/
theorem zero_movement_axis_flags_and_truncation :
    ∀ (e : Entity) (tm : Tilemap) (movement : ℚ × ℚ),
      (movement.1 + e.velocity.1 = 0 →
        (e.update tm movement).collisions.right = false ∧
        (e.update tm movement).collisions.left = false ∧
        ((e.update tm movement).pos.1 = e.pos.1 ∨
          (e.update tm movement).pos.1 = (truncQ e.pos.1 : ℚ))) ∧
      (movement.2 + e.velocity.2 = 0 →
        (e.update tm movement).collisions.down = false ∧
        (e.update tm movement).collisions.up = false ∧
        ((e.update tm movement).pos.2 = e.pos.2 ∨
          (e.update tm movement).pos.2 = (truncQ e.pos.2 : ℚ))) := by
  intro e tm movement
  set sx := xPass tm (movement.1 + e.velocity.1)
    (e.pos.1 + (movement.1 + e.velocity.1)) e.pos.2 e.size noCollisions with hsx
  set sy := yPass tm (movement.2 + e.velocity.2) sx.coord
    (e.pos.2 + (movement.2 + e.velocity.2)) e.size sx.coll with hsy
  have hcoll : (e.update tm movement).collisions = sy.coll := rfl
  have hpos1 : (e.update tm movement).pos.1 = sx.coord := rfl
  have hpos2 : (e.update tm movement).pos.2 = sy.coord := rfl
  have hyrl := yPass_right_left tm (movement.2 + e.velocity.2) sx.coord
    (e.pos.2 + (movement.2 + e.velocity.2)) e.size sx.coll
  have hxud := xPass_up_down tm (movement.1 + e.velocity.1)
    (e.pos.1 + (movement.1 + e.velocity.1)) e.pos.2 e.size noCollisions
  rw [← hsy] at hyrl
  rw [← hsx] at hxud
  constructor
  · intro hz
    have h1 : ¬ (movement.1 + e.velocity.1) > 0 := by rw [hz]; norm_num
    have h2 : ¬ (movement.1 + e.velocity.1) < 0 := by rw [hz]; norm_num
    have hx := xPass_zero tm (movement.1 + e.velocity.1)
      (e.pos.1 + (movement.1 + e.velocity.1)) e.pos.2 e.size noCollisions h1 h2
    rw [← hsx] at hx
    have hpx : e.pos.1 + (movement.1 + e.velocity.1) = e.pos.1 := by rw [hz]; ring
    refine ⟨?_, ?_, ?_⟩
    · rw [hcoll, hyrl.1, hx.1]
      rfl
    · rw [hcoll, hyrl.2, hx.1]
      rfl
    · rw [hpos1]
      rcases hx.2 with hc | hc
      · left
        rw [hc, hpx]
      · right
        rw [hc, hpx]
  · intro hz
    have h1 : ¬ (movement.2 + e.velocity.2) > 0 := by rw [hz]; norm_num
    have h2 : ¬ (movement.2 + e.velocity.2) < 0 := by rw [hz]; norm_num
    have hy := yPass_zero tm (movement.2 + e.velocity.2) sx.coord
      (e.pos.2 + (movement.2 + e.velocity.2)) e.size sx.coll h1 h2
    rw [← hsy] at hy
    have hpy : e.pos.2 + (movement.2 + e.velocity.2) = e.pos.2 := by rw [hz]; ring
    refine ⟨?_, ?_, ?_⟩
    · rw [hcoll, hy.1, hxud.2]
      rfl
    · rw [hcoll, hy.1, hxud.1]
      rfl
    · rw [hpos2]
      rcases hy.2 with hc | hc
      · left
        rw [hc, hpy]
      · right
        rw [hc, hpy]

/-- Witness for the amended C10: at the stationary-overlap input the
update leaves all four flags clear and truncates the x coordinate. -/
theorem zero_movement_axis_flags_and_truncation_witness :
    (overlapEntity.update groundMap (0, 0)).collisions.right = false ∧
      (overlapEntity.update groundMap (0, 0)).pos.1
        = (truncQ overlapEntity.pos.1 : ℚ) := by
  have h := zero_movement_axis_flags_and_truncation overlapEntity groundMap (0, 0)
  have h1 := h.1 (by norm_num [overlapEntity])
  refine ⟨h1.1, ?_⟩
  rcases h1.2.2 with hc | hc
  · rw [update_overlapEntity] at hc
    norm_num [overlapEntity] at hc
  · exact hc

-- Evaluation of the rightward-collision scenario, for starting positions
-- between 6 and 8 (the entity then penetrates the wall tile after the
-- 3-pixel step and is clamped back to x = 8).

lemma tileCell_run (x : ℚ) (h6 : 6 ≤ x) (h8 : x ≤ 8) :
    tileCell 16 (x + 3, 0) = (0, 0) := by
  unfold tileCell
  dsimp only
  have hx1 : ⌊(x + 3) / ((16 : ℤ) : ℚ)⌋ = 0 := by
    push_cast
    rw [Int.floor_eq_zero_iff, Set.mem_Ico]
    constructor
    · exact div_nonneg (by linarith) (by norm_num)
    · rw [div_lt_one (by norm_num : (0 : ℚ) < 16)]
      linarith
  rw [hx1]
  norm_num

lemma xPass_run (x : ℚ) (c : Collisions) (h6 : 6 ≤ x) (h8 : x ≤ 8) :
    xPass wallMap 3 (x + 3) 0 (8, 15) c
      = ⟨⟨8, 0, 8, 15⟩, 8, { c with right := true }⟩ := by
  unfold xPass
  rw [physics_rects_around_cell]
  have hcell : tileCell wallMap.tile_size (x + 3, 0) = (0, 0) := tileCell_run x h6 h8
  rw [hcell]
  have hrects : physicsRectsCell wallMap.tilemap wallMap.tile_size (0, 0)
      = [⟨16, 0, 16, 16⟩] := by decide
  rw [hrects]
  have htr : truncQ (x + 3) = ⌊x + 3⌋ := by
    unfold truncQ
    rw [if_pos (by linarith : (0 : ℚ) ≤ x + 3)]
  have h9 : (9 : ℤ) ≤ ⌊x + 3⌋ := by
    rw [Int.le_floor]
    push_cast
    linarith
  have h11 : ⌊x + 3⌋ ≤ 11 := by
    have h := Int.floor_le_floor (show x + 3 ≤ (11 : ℚ) by linarith)
    simpa using h
  have her : entityRect (x + 3) 0 (8, 15) = ⟨⌊x + 3⌋, 0, 8, 15⟩ := by
    unfold entityRect
    rw [htr]
    norm_num [truncQ]
  rw [her]
  have hcol : PRect.colliderect ⟨⌊x + 3⌋, 0, 8, 15⟩ ⟨16, 0, 16, 16⟩ = true := by
    simp only [PRect.colliderect, Bool.and_eq_true, decide_eq_true_eq]
    omega
  simp only [List.foldl_cons, List.foldl_nil]
  unfold xCollideStep
  rw [if_pos hcol]
  norm_num

lemma yPass_run (c : Collisions) :
    yPass wallMap 0 8 0 (8, 15) c
      = ⟨⟨8, 0, 8, 15⟩, 0, c⟩ := by
  unfold yPass
  rw [physics_rects_around_cell]
  have hcell : tileCell wallMap.tile_size (8, 0) = (0, 0) := by
    show tileCell 16 (8, 0) = (0, 0)
    unfold tileCell
    norm_num
  rw [hcell]
  have hrects : physicsRectsCell wallMap.tilemap wallMap.tile_size (0, 0)
      = [⟨16, 0, 16, 16⟩] := by decide
  rw [hrects]
  have her : entityRect 8 0 (8, 15) = ⟨8, 0, 8, 15⟩ := by
    unfold entityRect truncQ
    norm_num
  rw [her]
  have hcol : PRect.colliderect ⟨8, 0, 8, 15⟩ ⟨16, 0, 16, 16⟩ = false := by decide
  simp only [List.foldl_cons, List.foldl_nil]
  unfold yCollideStep
  simp [hcol]

lemma update_runEntity (x : ℚ) (h6 : 6 ≤ x) (h8 : x ≤ 8) :
    (runEntity x).update wallMap (3, 0)
      = ⟨(8, 0), (8, 15), (0, 1 / 10), ⟨false, false, true, false⟩, false, (3, 0)⟩ := by
  unfold Entity.update
  norm_num [runEntity]
  rw [xPass_run x noCollisions h6 h8]
  norm_num [yPass_run, noCollisions]

/-- Witness for C9: in the rightward-collision scenario the clamped x
coordinate is an integer. -/
theorem clamped_axis_position_is_integer_witness :
    ∃ n : ℤ, ((runEntity 6).update wallMap (3, 0)).pos.1 = (n : ℚ) := by
  refine (clamped_axis_position_is_integer (runEntity 6) wallMap (3, 0)).1 (Or.inl ?_)
  rw [update_runEntity 6 (by norm_num) (by norm_num)]

/-- Claim C1: an entity at rest moving right with frame movement 3 into the
stationary grass tile immediately to its right (starting between 6 and 8
pixels, so the step drives it into the tile spanning pixels 16 to 32) ends
the update stopped with the right flag set, its rectangle flush against
the left edge of the obstacle rectangle, and both vertical flags clear. -/
theorem entity_stops_at_right_obstacle :
    ∀ x : ℚ, 6 ≤ x → x ≤ 8 →
      ((runEntity x).update wallMap (3, 0)).collisions.right = true ∧
      ((runEntity x).update wallMap (3, 0)).collisions.up = false ∧
      ((runEntity x).update wallMap (3, 0)).collisions.down = false ∧
      PRect.right (Entity.rect ((runEntity x).update wallMap (3, 0)))
        = (tileRect wallMap.tile_size wallTile).x ∧
      ((runEntity x).update wallMap (3, 0)).pos.1 = 8 := by
  intro x h6 h8
  rw [update_runEntity x h6 h8]
  refine ⟨rfl, rfl, rfl, ?_, rfl⟩
  show PRect.right (Entity.rect
    ⟨(8, 0), (8, 15), (0, 1 / 10), ⟨false, false, true, false⟩, false, (3, 0)⟩) = 1 * 16
  norm_num [Entity.rect, entityRect, truncQ, PRect.right]

/-- Witness for C1: the scenario evaluated at the starting position 6. -/
theorem entity_stops_at_right_obstacle_witness :
    ((runEntity 6).update wallMap (3, 0)).collisions.right = true ∧
      ((runEntity 6).update wallMap (3, 0)).collisions.up = false ∧
      ((runEntity 6).update wallMap (3, 0)).collisions.down = false ∧
      PRect.right (Entity.rect ((runEntity 6).update wallMap (3, 0)))
        = (tileRect wallMap.tile_size wallTile).x ∧
      ((runEntity 6).update wallMap (3, 0)).pos.1 = 8 :=
  entity_stops_at_right_obstacle 6 (by norm_num) (by norm_num)
